import Mathlib

/-!
Verification development for the RMSG honeypot-placement system.

The definitions below are a shallow embedding of the Python sources:
`clean_ids_transitions.py` (kill-chain transition-matrix builder),
`strategy_engine.py` (budgeted placement optimizer), `honey_controller.py`
(round coordinator) and `data_loader.py` (vulnerability sampling).
Floating-point values are embedded as exact rationals; external library
functions (numpy's `log1p`, the Gurobi solver) are modelled by explicit
parameters or contract-level definitions, documented at each site.
-/

namespace RMSG

/-- The six kill-chain states in the fixed order used as matrix row/column
index (`STATE_ORDER` in clean_ids_transitions.py). -/
def STATE_ORDER : List String :=
  ["Benign", "PortScan", "BruteForce", "WebAttack", "DoS", "Botnet"]

/-- Raw traffic label → kill-chain state mapping (`LABEL_TO_STATE` in
clean_ids_transitions.py). -/
def LABEL_TO_STATE : List (String × String) :=
  [("Benign", "Benign"),
   ("PortScan", "PortScan"),
   ("FTP-Patator", "BruteForce"),
   ("SSH-Patator", "BruteForce"),
   ("Web Attack - Brute Force", "WebAttack"),
   ("Web Attack - Sql Injection", "WebAttack"),
   ("Web Attack - XSS", "WebAttack"),
   ("Brute Force - Web", "WebAttack"),
   ("Brute Force - XSS", "WebAttack"),
   ("SQL Injection", "WebAttack"),
   ("DoS Hulk", "DoS"),
   ("DoS GoldenEye", "DoS"),
   ("DoS Slowhttptest", "DoS"),
   ("DoS slowloris", "DoS"),
   ("Heartbleed", "DoS"),
   ("DDoS", "DoS"),
   ("Bot", "Botnet"),
   ("Infiltration", "WebAttack")]

/-- Association-list lookup, modelling a Python dict lookup (`d.get(k)`).
Keys in the embedded dicts are distinct, so list order is irrelevant. -/
def lookupStr {α : Type} : List (String × α) → String → Option α
  | [], _ => none
  | (k, v) :: rest, s => if k = s then some v else lookupStr rest s

/-- The function `map_label` of clean_ids_transitions.py:
`LABEL_TO_STATE.get(label, "Benign")`. -/
def map_label (label : String) : String :=
  (lookupStr LABEL_TO_STATE label).getD "Benign"

/-- Python `counts.get(s, 0)` on a state-count dict, modelled as an
association list over non-negative integers. -/
def countGet (counts : List (String × ℕ)) (s : String) : ℕ :=
  (lookupStr counts s).getD 0

/-- The smoothing constant `eps = 1e-6` of `get_weighted_probs`. -/
def epsQ : ℚ := 1 / 1000000

/-- The fixed mixing coefficient `mix_ratio = 0.7` of `get_weighted_probs`. -/
def mixAlpha : ℚ := 0.7

/-- One raw weight of `get_weighted_probs`: `log1p(v) + eps` when log-scaling
is on, else `v + eps`.  numpy's `np.log1p` is an external library function;
it is modelled by the explicit parameter `log1p`, about which theorems
assume only what holds of the real function on naturals (non-negativity). -/
def weightOf (log1p : ℕ → ℚ) (useLog : Bool) (v : ℕ) : ℚ :=
  if useLog then log1p v + epsQ else (v : ℚ) + epsQ

/-- The list `weights` of `get_weighted_probs` (raw counts of the targeted
states, scaled and smoothed). -/
def rawWeights (log1p : ℕ → ℚ) (targets : List String)
    (counts : List (String × ℕ)) (useLog : Bool) : List ℚ :=
  targets.map (fun t => weightOf log1p useLog (countGet counts t))

/-- The list `data_probs` of `get_weighted_probs`: weights normalized to a
distribution, or the uniform `[1/len]*len` split when the weight total is
zero. -/
def dataProbs (log1p : ℕ → ℚ) (targets : List String)
    (counts : List (String × ℕ)) (useLog : Bool) : List ℚ :=
  if (rawWeights log1p targets counts useLog).sum = 0 then
    targets.map (fun _ => 1 / (targets.length : ℚ))
  else
    (rawWeights log1p targets counts useLog).map
      (fun w => w / (rawWeights log1p targets counts useLog).sum)

/-- The mixing tail of `get_weighted_probs` (lines computing `final_probs`
and the final re-normalization): `P_final = alpha * P_data +
(1 - alpha) * P_uniform`, then division by the total. -/
def mixStep (data_probs : List ℚ) : List ℚ :=
  (data_probs.map
      (fun p => mixAlpha * p + (1 - mixAlpha) * (1 / (data_probs.length : ℚ)))).map
    (fun fp =>
      fp / (data_probs.map
        (fun p => mixAlpha * p + (1 - mixAlpha) * (1 / (data_probs.length : ℚ)))).sum)

/-- The reachable body of `get_weighted_probs` of clean_ids_transitions.py
(the second block after its `return` is dead code and is not embedded). -/
def get_weighted_probs (log1p : ℕ → ℚ) (targets : List String)
    (counts : List (String × ℕ)) (useLog : Bool) : List ℚ :=
  mixStep (dataProbs log1p targets counts useLog)

/-- The dict `state_counts = {s: counts.get(s, 0) for s in STATE_ORDER}` of
`build_transition_matrix_from_counts`. -/
def stateCounts (counts : List (String × ℕ)) : List (String × ℕ) :=
  STATE_ORDER.map (fun s => (s, countGet counts s))

/-- `probs_attack` of `build_transition_matrix_from_counts`: data-weighted
split of the PortScan attack mass between BruteForce and WebAttack. -/
def probsAttack (log1p : ℕ → ℚ) (counts : List (String × ℕ))
    (useLog : Bool) : List ℚ :=
  get_weighted_probs log1p ["BruteForce", "WebAttack"] (stateCounts counts) useLog

/-- `probs_next` (and the identical `probs_next_web`) of
`build_transition_matrix_from_counts`: split between DoS and Botnet. -/
def probsNext (log1p : ℕ → ℚ) (counts : List (String × ℕ))
    (useLog : Bool) : List ℚ :=
  get_weighted_probs log1p ["DoS", "Botnet"] (stateCounts counts) useLog

/-- The matrix `mat` of `build_transition_matrix_from_counts` as it stands
after all index assignments, before the final row normalization.  Rows and
columns follow `STATE_ORDER`; cells never assigned stay `0.0` from the
`np.zeros` initialization. -/
def preMatrix (log1p : ℕ → ℚ) (counts : List (String × ℕ))
    (useLog : Bool) : List (List ℚ) :=
  [[0.8, 0.2, 0, 0, 0, 0],
   [0.1, 0, (probsAttack log1p counts useLog).getD 0 0 * 0.9,
    (probsAttack log1p counts useLog).getD 1 0 * 0.9, 0, 0],
   [0, 0, 0, 0, (probsNext log1p counts useLog).getD 0 0,
    (probsNext log1p counts useLog).getD 1 0],
   [0, 0, 0, 0, (probsNext log1p counts useLog).getD 0 0,
    (probsNext log1p counts useLog).getD 1 0],
   [0.1, 0, 0, 0, 0.9, 0],
   [0.1, 0, 0, 0, 0, 0.9]]

/-- One row of the final `np.divide(mat, row_sums, where=row_sums!=0)`
step.  Modelled from the spec for the masked case: numpy leaves entries
outside the `where` mask unwritten, and the spec states that zero-sum rows
are left as zero; since every constructed row here is non-negative, a
zero-sum row is necessarily all-zero, so leaving it unchanged is exactly
"left as the all-zero row". -/
def normalizeRow (row : List ℚ) : List ℚ :=
  if row.sum = 0 then row else row.map (fun x => x / row.sum)

/-- The function `build_transition_matrix_from_counts` of
clean_ids_transitions.py: the assembled matrix, row-normalized. -/
def build_transition_matrix_from_counts (log1p : ℕ → ℚ)
    (counts : List (String × ℕ)) (useLog : Bool) : List (List ℚ) :=
  (preMatrix log1p counts useLog).map normalizeRow

/-- One entry of the node/asset snapshot (`nodes_data` dicts with keys
name, ip, impact, prob, cost).  strategy_engine.py reads name, impact,
prob, cost; honey_controller.py additionally reads ip. -/
structure NodeInfo where
  name : String
  ip : String
  impact : ℚ
  prob : ℚ
  cost : ℚ
deriving DecidableEq

/-- Per-node objective coefficient of `compute_optimal_placement`:
`utility = node['impact'] * node['prob']`. -/
def utility (n : NodeInfo) : ℚ := n.impact * n.prob

/-- Objective value `Σ x_i * impact_i * prob_i` of a 0/1 assignment,
paired positionally with the node list. -/
def objective : List NodeInfo → List Bool → ℚ
  | n :: ns, b :: bs => (if b then utility n else 0) + objective ns bs
  | _, _ => 0

/-- Constraint left-hand side `Σ x_i * cost_i` of a 0/1 assignment. -/
def totalCost : List NodeInfo → List Bool → ℚ
  | n :: ns, b :: bs => (if b then n.cost else 0) + totalCost ns bs
  | _, _ => 0

/-- The result-extraction loop of `compute_optimal_placement`: names of the
nodes whose decision variable is set (`x[i].x > 0.5`). -/
def selectedNames : List NodeInfo → List Bool → List String
  | n :: ns, b :: bs =>
    if b then n.name :: selectedNames ns bs else selectedNames ns bs
  | _, _ => []

/-- All 0/1 assignments over `n` binary variables. -/
def boolVecs : ℕ → List (List Bool)
  | 0 => [[]]
  | n + 1 =>
    ((boolVecs n).map (fun v => false :: v)) ++
      ((boolVecs n).map (fun v => true :: v))

/-- The assignments satisfying the single resource constraint
`Σ cost_i * x_i ≤ budget` of the model built by
`compute_optimal_placement`. -/
def feasibleVecs (budget : ℚ) (nodes : List NodeInfo) : List (List Bool) :=
  (boolVecs nodes.length).filter (fun v => decide (totalCost nodes v ≤ budget))

/-- Solver termination statuses distinguished by `compute_optimal_placement`
(it tests `model.status == GRB.OPTIMAL`; everything else falls through to
the empty-return branch). -/
inductive GurobiStatus where
  | OPTIMAL
  | INFEASIBLE
  | OTHER
deriving DecidableEq

/-- Modelled from the spec: the external Gurobi solver (consumed through
its API, not part of this repository) reports OPTIMAL exactly when the
binary program has a feasible point, INFEASIBLE otherwise (the objective
over finitely many 0/1 points is always bounded). -/
def gurobi_status (budget : ℚ) (nodes : List NodeInfo) : GurobiStatus :=
  if feasibleVecs budget nodes = [] then .INFEASIBLE else .OPTIMAL

/-- Fold selecting an assignment of maximal objective value (first maximal
point is kept; the solver's tie-break is unspecified and callers may not
rely on it). -/
def pickBest (nodes : List NodeInfo) : List Bool → List (List Bool) → List Bool
  | best, [] => best
  | best, v :: rest =>
    pickBest nodes (if objective nodes best < objective nodes v then v else best) rest

/-- Modelled from the spec: the assignment the external solver returns when
it reports OPTIMAL — a feasible point maximizing the objective of the model
built by `compute_optimal_placement`.  On an infeasible model the value is
never read (the code returns `[]` without touching the variables). -/
def gurobi_solution (budget : ℚ) (nodes : List NodeInfo) : List Bool :=
  match feasibleVecs budget nodes with
  | [] => List.replicate nodes.length false
  | v :: rest => pickBest nodes v rest

/-- The result-parsing tail of `compute_optimal_placement` (lines 57-77):
only an OPTIMAL status yields the selected names; every other status
returns the empty list, with no further information in the return value. -/
def parse_placement_result (status : GurobiStatus) (nodes : List NodeInfo)
    (x : List Bool) : List String :=
  match status with
  | .OPTIMAL => selectedNames nodes x
  | _ => []

/-- `StrategyEngine.compute_optimal_placement` of strategy_engine.py:
builds the 0/1 program, invokes the solver, and parses the result. -/
def compute_optimal_placement (budget : ℚ) (nodes : List NodeInfo) : List String :=
  parse_placement_result (gurobi_status budget nodes) nodes
    (gurobi_solution budget nodes)

/-- The IP-extraction loop of `HoneyMatrixController.game_loop` (step B):
IPs of the nodes whose name was selected by the optimizer. -/
def extract_ips (nodes : List NodeInfo) (names : List String) : List String :=
  (nodes.filter (fun n => names.contains n.name)).map (fun n => n.ip)

/-- `HoneyMatrixController.update_honeypot_flows`: installs a
redirect-to-controller rule for every currently selected honeypot IP.  The
per-switch rule tables are modelled as one set of matched destination
addresses; re-installing an existing match replaces it, hence set union.
The method removes nothing. -/
def update_honeypot_flows (installed : Finset String)
    (honey_ips : List String) : Finset String :=
  installed ∪ honey_ips.toFinset

/-- One iteration of `HoneyMatrixController.game_loop` acting on the rule
state: with no node data the round only waits; otherwise it re-solves
placement with the budget fixed at construction (15), extracts the selected
IPs and hands them to `update_honeypot_flows`.  The loop keeps no record of
the previous round's decision. -/
def game_round (nodes : List NodeInfo) (installed : Finset String) : Finset String :=
  if nodes = [] then installed
  else
    update_honeypot_flows installed
      (extract_ips nodes (compute_optimal_placement 15 nodes))

/-- Modelled from the spec: §4.4 steps (3)-(5) — the round the spec
describes diffs the new decision against the previous one, installs rules
for newly selected addresses and withdraws rules for addresses no longer
selected. -/
def spec_round_rules (prev new installed : Finset String) : Finset String :=
  (installed \ (prev \ new)) ∪ (new \ prev)

/-- `HoneyMatrixController.__init__`'s snapshot read: the file contents (or
`none` when network_state.json is absent).  A missing file is caught
(`except FileNotFoundError`), logged, and replaced by an empty node list;
construction always succeeds. -/
def controller_init (file : Option (List NodeInfo)) :
    Except String (List NodeInfo) :=
  match file with
  | some nodes => Except.ok nodes
  | none => Except.ok []

/-- One vulnerability record of the CVE pool, as a Python dict: the two
fields written by `get_random_vuln` may be absent before the first
sampling, hence `Option`. -/
structure VulnRec where
  cve_id : String
  impact_score : ℚ
  resource_req : Option String
  deploy_cost : Option ℕ
deriving DecidableEq

/-- The candidate filter of `CVEDataLoader.get_random_vuln`, keeping the
pool position of each record whose impact score lies in the window
(`min_score <= v['impact_score'] <= max_score`), in pool order; `k` is the
position offset of the first element. -/
def candidatesFrom (minS maxS : ℚ) : ℕ → List VulnRec → List (ℕ × VulnRec)
  | _, [] => []
  | i, v :: rest =>
    if minS ≤ v.impact_score ∧ v.impact_score ≤ maxS then
      (i, v) :: candidatesFrom minS maxS (i + 1) rest
    else candidatesFrom minS maxS (i + 1) rest

/-- The field writes of `get_random_vuln` on the selected record: below the
8.0 impact threshold the record becomes a Low-Interaction honeypot of cost
1, otherwise High-Interaction of cost 5. -/
def mutateVuln (v : VulnRec) : VulnRec :=
  if v.impact_score < 8 then
    { v with resource_req := some "Low-Interaction", deploy_cost := some 1 }
  else
    { v with resource_req := some "High-Interaction", deploy_cost := some 5 }

/-- `CVEDataLoader.get_random_vuln` of data_loader.py.  `random.choice` is
modelled by the injectable index `k` (reduced modulo the list length); an
empty pool makes the fallback `random.choice` raise, modelled as `none`.
The Python `selected` aliases the pool entry, so the field writes mutate
the pool in place: the embedding returns the sampled record together with
the pool as it stands after the call (the fallback branch returns before
any field write). -/
def get_random_vuln (pool : List VulnRec) (minS maxS : ℚ) (k : ℕ) :
    Option (VulnRec × List VulnRec) :=
  match candidatesFrom minS maxS 0 pool with
  | [] =>
    match pool with
    | [] => none
    | p :: ps => some ((p :: ps).getD (k % (p :: ps).length) p, p :: ps)
  | c :: cs =>
    some (mutateVuln ((c :: cs).getD (k % (c :: cs).length) c).2,
      pool.set ((c :: cs).getD (k % (c :: cs).length) c).1
        (mutateVuln ((c :: cs).getD (k % (c :: cs).length) c).2))

/-- The three-asset instance of C1 (named A, B, C; the spec's worked
example): impact/prob/cost as given in the spec. -/
def instABC : List NodeInfo :=
  [⟨"A", "", 9.8, 0.39, 5⟩, ⟨"B", "", 7.0, 0.2, 1⟩, ⟨"C", "", 6.5, 0.2, 1⟩]

/-- A one-node snapshot used as a concrete coordinator-round input. -/
def nodesOne : List NodeInfo := [⟨"n2", "10.0.0.2", 9, 1/2, 1⟩]

/-- A one-record vulnerability pool used as a concrete sampling input. -/
def vulnPoolOne : List VulnRec := [⟨"CVE-0001", 7.5, some "High-Interaction", none⟩]

/-! Generic list arithmetic helpers. -/

lemma sum_map_div (l : List ℚ) (c : ℚ) :
    (l.map (fun w => w / c)).sum = l.sum / c := by
  induction l with
  | nil => simp
  | cons a t ih => simp [ih, add_div]

lemma sum_map_affine (l : List ℚ) (a c : ℚ) :
    (l.map (fun p => a * p + c)).sum = a * l.sum + l.length * c := by
  induction l with
  | nil => simp
  | cons x t ih =>
    simp only [List.map_cons, List.sum_cons, ih, List.length_cons]
    push_cast
    ring

lemma sum_map_const {α : Type} (l : List α) (c : ℚ) :
    (l.map (fun _ => c)).sum = l.length * c := by
  induction l with
  | nil => simp
  | cons x t ih =>
    simp only [List.map_cons, List.sum_cons, ih, List.length_cons]
    push_cast
    ring

lemma sum_nonneg_of_forall (l : List ℚ) (h : ∀ x ∈ l, 0 ≤ x) : 0 ≤ l.sum := by
  induction l with
  | nil => simp
  | cons a t ih =>
    simp only [List.sum_cons]
    have ha := h a (by simp)
    have ht := ih (fun x hx => h x (by simp [hx]))
    linarith

lemma all_zero_of_sum_zero (l : List ℚ) (h : ∀ x ∈ l, 0 ≤ x)
    (hs : l.sum = 0) : ∀ x ∈ l, x = 0 := by
  induction l with
  | nil => simp
  | cons a t ih =>
    have ha := h a (by simp)
    have ht : ∀ x ∈ t, 0 ≤ x := fun x hx => h x (by simp [hx])
    have hts := sum_nonneg_of_forall t ht
    simp only [List.sum_cons] at hs
    have ha0 : a = 0 := by linarith
    have hts0 : t.sum = 0 := by linarith
    intro x hx
    rcases List.mem_cons.mp hx with rfl | hx
    · exact ha0
    · exact ih ht hts0 x hx

lemma exists_ne_zero_of_sum_ne_zero (l : List ℚ) (h : l.sum ≠ 0) :
    ∃ x ∈ l, x ≠ 0 := by
  by_contra hall
  push_neg at hall
  exact h (List.sum_eq_zero hall)

/-! Properties of the weighted-probability mixing pipeline. -/

lemma rawWeights_nonneg (log1p : ℕ → ℚ) (targets : List String)
    (counts : List (String × ℕ)) (useLog : Bool)
    (hlog : ∀ v, 0 ≤ log1p v) :
    ∀ w ∈ rawWeights log1p targets counts useLog, 0 ≤ w := by
  intro w hw
  simp only [rawWeights, List.mem_map] at hw
  obtain ⟨t, -, rfl⟩ := hw
  have he : (0 : ℚ) ≤ epsQ := by norm_num [epsQ]
  unfold weightOf
  split
  · have := hlog (countGet counts t)
    linarith
  · positivity

lemma rawWeights_length (log1p : ℕ → ℚ) (targets : List String)
    (counts : List (String × ℕ)) (useLog : Bool) :
    (rawWeights log1p targets counts useLog).length = targets.length := by
  simp [rawWeights]

lemma dataProbs_length (log1p : ℕ → ℚ) (targets : List String)
    (counts : List (String × ℕ)) (useLog : Bool) :
    (dataProbs log1p targets counts useLog).length = targets.length := by
  unfold dataProbs
  split <;> simp [rawWeights]

lemma dataProbs_nonneg (log1p : ℕ → ℚ) (targets : List String)
    (counts : List (String × ℕ)) (useLog : Bool)
    (hlog : ∀ v, 0 ≤ log1p v) :
    ∀ p ∈ dataProbs log1p targets counts useLog, 0 ≤ p := by
  intro p hp
  unfold dataProbs at hp
  split at hp
  · simp only [List.mem_map] at hp
    obtain ⟨t, -, rfl⟩ := hp
    positivity
  · simp only [List.mem_map] at hp
    obtain ⟨w, hw, rfl⟩ := hp
    have h0 := rawWeights_nonneg log1p targets counts useLog hlog w hw
    have hs := sum_nonneg_of_forall _ (rawWeights_nonneg log1p targets counts useLog hlog)
    positivity

lemma dataProbs_sum_one (log1p : ℕ → ℚ) (targets : List String)
    (counts : List (String × ℕ)) (useLog : Bool)
    (hT : targets ≠ []) :
    (dataProbs log1p targets counts useLog).sum = 1 := by
  have hn : (targets.length : ℚ) ≠ 0 :=
    Nat.cast_ne_zero.mpr (List.length_pos.mpr hT).ne'
  unfold dataProbs
  split
  · rw [sum_map_const]
    field_simp
  · rw [sum_map_div, div_self ‹¬(rawWeights log1p targets counts useLog).sum = 0›]

lemma mixStep_length (dp : List ℚ) : (mixStep dp).length = dp.length := by
  simp [mixStep]

lemma mixStep_eq_of_sum_one (dp : List ℚ) (h1 : dp.sum = 1) (hne : dp ≠ []) :
    mixStep dp =
      dp.map (fun p => mixAlpha * p + (1 - mixAlpha) * (1 / (dp.length : ℚ))) := by
  have hn : (dp.length : ℚ) ≠ 0 :=
    Nat.cast_ne_zero.mpr (List.length_pos.mpr hne).ne'
  have htot :
      (dp.map (fun p => mixAlpha * p + (1 - mixAlpha) * (1 / (dp.length : ℚ)))).sum = 1 := by
    rw [sum_map_affine, h1]
    field_simp
  unfold mixStep
  rw [htot]
  simp

lemma mixStep_sum_one (dp : List ℚ) (h1 : dp.sum = 1) (hne : dp ≠ []) :
    (mixStep dp).sum = 1 := by
  have hn : (dp.length : ℚ) ≠ 0 :=
    Nat.cast_ne_zero.mpr (List.length_pos.mpr hne).ne'
  rw [mixStep_eq_of_sum_one dp h1 hne, sum_map_affine, h1]
  field_simp

lemma mixStep_pos (dp : List ℚ) (h1 : dp.sum = 1) (hne : dp ≠ [])
    (h0 : ∀ p ∈ dp, 0 ≤ p) : ∀ p ∈ mixStep dp, 0 < p := by
  have hn : (0 : ℚ) < (dp.length : ℚ) := by
    exact_mod_cast List.length_pos.mpr hne
  intro p hp
  rw [mixStep_eq_of_sum_one dp h1 hne] at hp
  simp only [List.mem_map] at hp
  obtain ⟨q, hq, rfl⟩ := hp
  have hq0 := h0 q hq
  have h7 : (0 : ℚ) ≤ mixAlpha := by norm_num [mixAlpha]
  have h3 : (0 : ℚ) < 1 - mixAlpha := by norm_num [mixAlpha]
  have hinv : (0 : ℚ) < 1 / (dp.length : ℚ) := by positivity
  nlinarith

lemma dataProbs_ne_nil (log1p : ℕ → ℚ) (targets : List String)
    (counts : List (String × ℕ)) (useLog : Bool) (hT : targets ≠ []) :
    dataProbs log1p targets counts useLog ≠ [] := by
  intro h
  apply hT
  have := dataProbs_length log1p targets counts useLog
  rw [h] at this
  exact List.length_eq_zero.mp this.symm

lemma gwp_length (log1p : ℕ → ℚ) (targets : List String)
    (counts : List (String × ℕ)) (useLog : Bool) :
    (get_weighted_probs log1p targets counts useLog).length = targets.length := by
  rw [get_weighted_probs, mixStep_length, dataProbs_length]

lemma gwp_sum_one (log1p : ℕ → ℚ) (targets : List String)
    (counts : List (String × ℕ)) (useLog : Bool) (hT : targets ≠ []) :
    (get_weighted_probs log1p targets counts useLog).sum = 1 :=
  mixStep_sum_one _ (dataProbs_sum_one log1p targets counts useLog hT)
    (dataProbs_ne_nil log1p targets counts useLog hT)

lemma gwp_pos (log1p : ℕ → ℚ) (targets : List String)
    (counts : List (String × ℕ)) (useLog : Bool)
    (hlog : ∀ v, 0 ≤ log1p v) (hT : targets ≠ []) :
    ∀ p ∈ get_weighted_probs log1p targets counts useLog, 0 < p :=
  mixStep_pos _ (dataProbs_sum_one log1p targets counts useLog hT)
    (dataProbs_ne_nil log1p targets counts useLog hT)
    (dataProbs_nonneg log1p targets counts useLog hlog)

lemma gwp_two (log1p : ℕ → ℚ) (t1 t2 : String)
    (counts : List (String × ℕ)) (useLog : Bool)
    (hlog : ∀ v, 0 ≤ log1p v) :
    ∃ p q, get_weighted_probs log1p [t1, t2] counts useLog = [p, q] ∧
      p + q = 1 ∧ 0 < p ∧ 0 < q := by
  have hlen : (get_weighted_probs log1p [t1, t2] counts useLog).length = 2 :=
    gwp_length log1p [t1, t2] counts useLog
  obtain ⟨p, q, heq⟩ := List.length_eq_two.mp hlen
  refine ⟨p, q, heq, ?_, ?_, ?_⟩
  · have := gwp_sum_one log1p [t1, t2] counts useLog (by simp)
    rw [heq] at this
    simpa using this
  · exact gwp_pos log1p [t1, t2] counts useLog hlog (by simp) p (by simp [heq])
  · exact gwp_pos log1p [t1, t2] counts useLog hlog (by simp) q (by simp [heq])

/-! Properties of the brute-force argmax modelling the solver contract. -/

lemma pickBest_mem (nodes : List NodeInfo) :
    ∀ (l : List (List Bool)) (best : List Bool),
      pickBest nodes best l = best ∨ pickBest nodes best l ∈ l := by
  intro l
  induction l with
  | nil => intro best; left; rfl
  | cons v rest ih =>
    intro best
    unfold pickBest
    rcases ih (if objective nodes best < objective nodes v then v else best) with h | h
    · rw [h]
      split
      · right; exact List.mem_cons_self v rest
      · left; rfl
    · right; exact List.mem_cons_of_mem v h

lemma pickBest_ge_init (nodes : List NodeInfo) :
    ∀ (l : List (List Bool)) (best : List Bool),
      objective nodes best ≤ objective nodes (pickBest nodes best l) := by
  intro l
  induction l with
  | nil => intro best; exact le_refl _
  | cons v rest ih =>
    intro best
    unfold pickBest
    refine le_trans ?_ (ih (if objective nodes best < objective nodes v then v else best))
    split
    · exact le_of_lt ‹_›
    · exact le_refl _

lemma pickBest_ge_mem (nodes : List NodeInfo) :
    ∀ (l : List (List Bool)) (best v : List Bool), v ∈ l →
      objective nodes v ≤ objective nodes (pickBest nodes best l) := by
  intro l
  induction l with
  | nil => intro best v hv; cases hv
  | cons w rest ih =>
    intro best v hv
    unfold pickBest
    rcases List.mem_cons.mp hv with rfl | hv
    · refine le_trans ?_
        (pickBest_ge_init nodes rest (if objective nodes best < objective nodes v then v else best))
      split
      · exact le_refl _
      · exact le_of_not_lt ‹_›
    · exact ih _ v hv

lemma boolVecs_complete : ∀ (y : List Bool), y ∈ boolVecs y.length := by
  intro y
  induction y with
  | nil => simp [boolVecs]
  | cons b t ih =>
    show b :: t ∈ boolVecs (t.length + 1)
    unfold boolVecs
    rcases b with _ | _
    · exact List.mem_append_left _ (List.mem_map_of_mem _ ih)
    · exact List.mem_append_right _ (List.mem_map_of_mem _ ih)

lemma gurobi_solution_feasible (budget : ℚ) (nodes : List NodeInfo)
    (h : gurobi_status budget nodes = .OPTIMAL) :
    totalCost nodes (gurobi_solution budget nodes) ≤ budget := by
  unfold gurobi_status at h
  split at h
  · cases h
  · rename_i hne
    obtain ⟨v, rest, hvr⟩ := List.exists_cons_of_ne_nil hne
    have hmem : gurobi_solution budget nodes ∈ feasibleVecs budget nodes := by
      unfold gurobi_solution
      rw [hvr]
      show pickBest nodes v rest ∈ v :: rest
      rcases pickBest_mem nodes rest v with h' | h'
      · rw [h']; exact List.mem_cons_self v rest
      · exact List.mem_cons_of_mem v h'
    have := List.of_mem_filter hmem
    exact of_decide_eq_true this

lemma gurobi_solution_optimal (budget : ℚ) (nodes : List NodeInfo)
    (h : gurobi_status budget nodes = .OPTIMAL) :
    ∀ y, y.length = nodes.length → totalCost nodes y ≤ budget →
      objective nodes y ≤ objective nodes (gurobi_solution budget nodes) := by
  intro y hlen hcost
  have hy : y ∈ feasibleVecs budget nodes := by
    unfold feasibleVecs
    refine List.mem_filter.mpr ⟨?_, decide_eq_true hcost⟩
    rw [← hlen]
    exact boolVecs_complete y
  unfold gurobi_status at h
  split at h
  · cases h
  · rename_i hne
    obtain ⟨v, rest, hvr⟩ := List.exists_cons_of_ne_nil hne
    unfold gurobi_solution
    rw [hvr]
    show objective nodes y ≤ objective nodes (pickBest nodes v rest)
    rw [hvr] at hy
    rcases List.mem_cons.mp hy with rfl | hy
    · exact pickBest_ge_init nodes rest y
    · exact pickBest_ge_mem nodes rest v y hy

/-! List-index helpers for the data-loader frame theorem. -/

lemma getD_mem_of_lt {α : Type} :
    ∀ (l : List α) (n : ℕ) (d : α), n < l.length → l.getD n d ∈ l := by
  intro l
  induction l with
  | nil => intro n d h; simp at h
  | cons a t ih =>
    intro n d h
    cases n with
    | zero => simp
    | succ m =>
      simp only [List.getD_cons_succ]
      exact List.mem_cons_of_mem a (ih m d (Nat.lt_of_succ_lt_succ h))

lemma lt_length_of_get?_eq_some {α : Type} :
    ∀ (l : List α) (i : ℕ) (w : α), l.get? i = some w → i < l.length := by
  intro l
  induction l with
  | nil => intro i w h; simp at h
  | cons a t ih =>
    intro i w h
    cases i with
    | zero => simp
    | succ m =>
      simp only [List.get?_cons_succ] at h
      exact Nat.succ_lt_succ (ih m w h)

lemma getD_eq_of_get?_eq_some {α : Type} :
    ∀ (l : List α) (i : ℕ) (w d : α), l.get? i = some w → l.getD i d = w := by
  intro l
  induction l with
  | nil => intro i w d h; simp at h
  | cons a t ih =>
    intro i w d h
    cases i with
    | zero => simp_all
    | succ m =>
      simp only [List.get?_cons_succ] at h
      simp only [List.getD_cons_succ]
      exact ih m w d h

lemma get?_set_of_ne {α : Type} :
    ∀ (l : List α) (i j : ℕ) (a : α), i ≠ j → (l.set i a).get? j = l.get? j := by
  intro l
  induction l with
  | nil => intro i j a _; simp
  | cons x t ih =>
    intro i j a hij
    cases i with
    | zero =>
      cases j with
      | zero => exact absurd rfl hij
      | succ m => simp
    | succ n =>
      cases j with
      | zero => simp
      | succ m =>
        simp only [List.set_cons_succ, List.get?_cons_succ]
        exact ih n m a (fun h => hij (by rw [h]))

lemma set_getD_self {α : Type} :
    ∀ (l : List α) (i : ℕ) (d : α), i < l.length → l.set i (l.getD i d) = l := by
  intro l
  induction l with
  | nil => intro i d h; simp at h
  | cons a t ih =>
    intro i d h
    cases i with
    | zero => simp
    | succ m =>
      simp only [List.getD_cons_succ, List.set_cons_succ]
      rw [ih m d (Nat.lt_of_succ_lt_succ h)]

lemma candidatesFrom_get? (minS maxS : ℚ) :
    ∀ (pool : List VulnRec) (k : ℕ) (i : ℕ) (v : VulnRec),
      (i, v) ∈ candidatesFrom minS maxS k pool →
      ∃ j, i = k + j ∧ pool.get? j = some v := by
  intro pool
  induction pool with
  | nil => intro k i v h; simp [candidatesFrom] at h
  | cons a t ih =>
    intro k i v h
    unfold candidatesFrom at h
    split at h
    · rcases List.mem_cons.mp h with heq | h'
      · obtain ⟨rfl, rfl⟩ := Prod.mk.injEq .. ▸ Prod.mk.inj heq
        exact ⟨0, by simp⟩
      · obtain ⟨j, rfl, hj⟩ := ih (k + 1) i v h'
        exact ⟨j + 1, by omega, by simpa using hj⟩
    · obtain ⟨j, rfl, hj⟩ := ih (k + 1) i v h
      exact ⟨j + 1, by omega, by simpa using hj⟩

lemma lookupStr_snd {α : Type} :
    ∀ (l : List (String × α)) (s : String) (v : α),
      lookupStr l s = some v → v ∈ l.map Prod.snd := by
  intro l
  induction l with
  | nil => intro s v h; simp [lookupStr] at h
  | cons a t ih =>
    intro s v h
    obtain ⟨k, w⟩ := a
    simp only [lookupStr] at h
    split at h
    · simp only [Option.some.injEq] at h
      subst h
      simp
    · simp only [List.map_cons]
      exact List.mem_cons_of_mem _ (ih s v h)

/-- C10: `map_label` is total over arbitrary label strings — its result is
always one of the six states of `STATE_ORDER` — and any label absent from
`LABEL_TO_STATE` is mapped to "Benign" rather than raising. -/
theorem map_label_total_and_defaults (label : String) :
    map_label label ∈ STATE_ORDER ∧
      (lookupStr LABEL_TO_STATE label = none → map_label label = "Benign") := by
  constructor
  · cases h : lookupStr LABEL_TO_STATE label with
    | none =>
      simp only [map_label, h, Option.getD_none]
      decide
    | some v =>
      have hv := lookupStr_snd LABEL_TO_STATE label v h
      have hsub : ∀ x ∈ LABEL_TO_STATE.map Prod.snd, x ∈ STATE_ORDER := by decide
      simpa [map_label, h] using hsub v hv
  · intro h
    simp [map_label, h]

/-- Witness for C10 at a label outside the mapping. -/
theorem map_label_total_and_defaults_witness :
    lookupStr LABEL_TO_STATE "Unknown-Attack" = none ∧
      map_label "Unknown-Attack" ∈ STATE_ORDER ∧
      map_label "Unknown-Attack" = "Benign" :=
  ⟨by decide, (map_label_total_and_defaults "Unknown-Attack").1,
    (map_label_total_and_defaults "Unknown-Attack").2 (by decide)⟩

/-- C4: the mixing step with alpha = 0.7 applied to the one-hot
data-probability vector [1, 0] over two targets returns, after the final
re-normalization, exactly [0.85, 0.15]. -/
theorem mixing_one_hot_two_targets : mixStep [1, 0] = [0.85, 0.15] := by
  norm_num [mixStep, mixAlpha]

/-- C3: for every non-empty target list and every count mapping (counts
absent or zero included), every entry of the vector returned by
`get_weighted_probs` is strictly positive; `log1p` is non-negative on
naturals, as numpy's is. -/
theorem weighted_probs_all_positive (log1p : ℕ → ℚ) (targets : List String)
    (counts : List (String × ℕ)) (useLog : Bool)
    (hlog : ∀ v, 0 ≤ log1p v) (hT : targets ≠ []) :
    ∀ p ∈ get_weighted_probs log1p targets counts useLog, 0 < p :=
  gwp_pos log1p targets counts useLog hlog hT

/-- Witness for C3 on an all-absent count mapping. -/
theorem weighted_probs_all_positive_witness :
    (1 / 2 : ℚ) ∈ get_weighted_probs (fun _ => 0) ["DoS", "Botnet"] [] true ∧
      (0 : ℚ) < 1 / 2 :=
  ⟨by norm_num [get_weighted_probs, dataProbs, rawWeights, weightOf, epsQ,
      countGet, lookupStr, mixStep, mixAlpha],
    weighted_probs_all_positive (fun _ => 0) ["DoS", "Botnet"] [] true
      (fun _ => le_refl 0) (by decide) (1 / 2)
      (by norm_num [get_weighted_probs, dataProbs, rawWeights, weightOf, epsQ,
        countGet, lookupStr, mixStep, mixAlpha])⟩

/-- C7: the final row normalization divides every row of non-zero sum
entry-wise by its sum and leaves a zero-sum row (necessarily the all-zero
row, entries being non-negative) unchanged as the all-zero row, and
`build_transition_matrix_from_counts` applies exactly this step to every
row of the assembled matrix. -/
theorem row_normalization_guard :
    (∀ row : List ℚ, (∀ x ∈ row, 0 ≤ x) →
        (row.sum ≠ 0 → normalizeRow row = row.map (fun x => x / row.sum)) ∧
        (row.sum = 0 → normalizeRow row = row ∧ ∀ x ∈ row, x = 0)) ∧
      ∀ log1p counts useLog,
        build_transition_matrix_from_counts log1p counts useLog =
          (preMatrix log1p counts useLog).map normalizeRow := by
  constructor
  · intro row hnn
    constructor
    · intro h
      unfold normalizeRow
      rw [if_neg h]
    · intro h
      exact ⟨by unfold normalizeRow; rw [if_pos h],
        all_zero_of_sum_zero row hnn h⟩
  · intro log1p counts useLog
    rfl

/-- Witness for C7 on the all-zero two-entry row. -/
theorem row_normalization_guard_witness :
    normalizeRow [0, 0] = [0, 0] ∧ ∀ x ∈ ([0, 0] : List ℚ), x = 0 :=
  (row_normalization_guard.1 [0, 0] (by norm_num)).2 (by norm_num)

lemma normalizeRow_of_sum_one (r : List ℚ) (h : r.sum = 1) :
    normalizeRow r = r := by
  unfold normalizeRow
  rw [h]
  norm_num

lemma row_props (r : List ℚ) (hsum : r.sum = 1) (hnn : ∀ x ∈ r, 0 ≤ x) :
    |(normalizeRow r).sum - 1| ≤ 1 / 1000000000 ∧
      (∀ x ∈ normalizeRow r, 0 ≤ x) ∧ ∃ x ∈ normalizeRow r, x ≠ 0 := by
  rw [normalizeRow_of_sum_one r hsum]
  refine ⟨by rw [hsum]; norm_num, hnn, ?_⟩
  exact exists_ne_zero_of_sum_ne_zero r (by rw [hsum]; norm_num)

/-- C2: for every non-negative integer count vector over the six
kill-chain states, every row of the matrix returned by
`build_transition_matrix_from_counts` sums to 1 within ±1e-9 (indeed,
exactly to 1 in exact arithmetic), contains only non-negative entries, and
is not identically zero. -/
theorem transition_matrix_rows_stochastic (log1p : ℕ → ℚ)
    (counts : List (String × ℕ)) (useLog : Bool)
    (hlog : ∀ v, 0 ≤ log1p v) (row : List ℚ)
    (hrow : row ∈ build_transition_matrix_from_counts log1p counts useLog) :
    |row.sum - 1| ≤ 1 / 1000000000 ∧ (∀ x ∈ row, 0 ≤ x) ∧
      ∃ x ∈ row, x ≠ 0 := by
  obtain ⟨pa, qa, hA, hAs, hA0, hA1⟩ :=
    gwp_two log1p "BruteForce" "WebAttack" (stateCounts counts) useLog hlog
  obtain ⟨pn, qn, hN, hNs, hN0, hN1⟩ :=
    gwp_two log1p "DoS" "Botnet" (stateCounts counts) useLog hlog
  have e1 : (probsAttack log1p counts useLog).getD 0 0 = pa := by
    unfold probsAttack; rw [hA]; rfl
  have e2 : (probsAttack log1p counts useLog).getD 1 0 = qa := by
    unfold probsAttack; rw [hA]; rfl
  have e3 : (probsNext log1p counts useLog).getD 0 0 = pn := by
    unfold probsNext; rw [hN]; rfl
  have e4 : (probsNext log1p counts useLog).getD 1 0 = qn := by
    unfold probsNext; rw [hN]; rfl
  simp only [build_transition_matrix_from_counts, List.mem_map] at hrow
  obtain ⟨r, hr, rfl⟩ := hrow
  simp only [preMatrix, e1, e2, e3, e4, List.mem_cons, List.not_mem_nil,
    or_false] at hr
  rcases hr with rfl | rfl | rfl | rfl | rfl | rfl
  · refine row_props _ (by norm_num) ?_
    intro x hx
    simp only [List.mem_cons, List.not_mem_nil, or_false] at hx
    rcases hx with rfl | rfl | rfl | rfl | rfl | rfl <;> norm_num
  · refine row_props _ ?_ ?_
    · simp only [List.sum_cons, List.sum_nil]
      norm_num
      linarith
    · intro x hx
      simp only [List.mem_cons, List.not_mem_nil, or_false] at hx
      rcases hx with rfl | rfl | rfl | rfl | rfl | rfl
      · norm_num
      · norm_num
      · exact mul_nonneg hA0.le (by norm_num)
      · exact mul_nonneg hA1.le (by norm_num)
      · norm_num
      · norm_num
  · refine row_props _ ?_ ?_
    · simp only [List.sum_cons, List.sum_nil]
      linarith
    · intro x hx
      simp only [List.mem_cons, List.not_mem_nil, or_false] at hx
      rcases hx with rfl | rfl | rfl | rfl | rfl | rfl
      · norm_num
      · norm_num
      · norm_num
      · norm_num
      · exact hN0.le
      · exact hN1.le
  · refine row_props _ ?_ ?_
    · simp only [List.sum_cons, List.sum_nil]
      linarith
    · intro x hx
      simp only [List.mem_cons, List.not_mem_nil, or_false] at hx
      rcases hx with rfl | rfl | rfl | rfl | rfl | rfl
      · norm_num
      · norm_num
      · norm_num
      · norm_num
      · exact hN0.le
      · exact hN1.le
  · refine row_props _ (by norm_num) ?_
    intro x hx
    simp only [List.mem_cons, List.not_mem_nil, or_false] at hx
    rcases hx with rfl | rfl | rfl | rfl | rfl | rfl <;> norm_num
  · refine row_props _ (by norm_num) ?_
    intro x hx
    simp only [List.mem_cons, List.not_mem_nil, or_false] at hx
    rcases hx with rfl | rfl | rfl | rfl | rfl | rfl <;> norm_num

/-- Witness for C2: the Benign row of the matrix built from an empty count
mapping with log-scaling on. -/
theorem transition_matrix_rows_stochastic_witness :
    ([0.8, 0.2, 0, 0, 0, 0] : List ℚ) ∈
        build_transition_matrix_from_counts (fun _ => 0) [] true ∧
      |([0.8, 0.2, 0, 0, 0, 0] : List ℚ).sum - 1| ≤ 1 / 1000000000 ∧
      (∀ x ∈ ([0.8, 0.2, 0, 0, 0, 0] : List ℚ), 0 ≤ x) ∧
      ∃ x ∈ ([0.8, 0.2, 0, 0, 0, 0] : List ℚ), x ≠ 0 :=
  ⟨by norm_num [build_transition_matrix_from_counts, preMatrix, probsAttack,
      probsNext, stateCounts, STATE_ORDER, get_weighted_probs, dataProbs,
      rawWeights, weightOf, epsQ, countGet, lookupStr, mixStep, mixAlpha,
      normalizeRow],
    transition_matrix_rows_stochastic (fun _ => 0) [] true (fun _ => le_refl 0)
      [0.8, 0.2, 0, 0, 0, 0]
      (by norm_num [build_transition_matrix_from_counts, preMatrix, probsAttack,
        probsNext, stateCounts, STATE_ORDER, get_weighted_probs, dataProbs,
        rawWeights, weightOf, epsQ, countGet, lookupStr, mixStep, mixAlpha,
        normalizeRow])⟩

/-- C1: whenever the solver reports an optimal solution, the selection of
`compute_optimal_placement` is the parsed optimal assignment, its total
cost is within budget, and its objective value Σ(impact × prob) is at
least that of every other assignment within budget; in particular, on the
three-asset instance A/B/C the selection is [A] at budget 5 and [A, B] at
budget 6. -/
theorem compute_optimal_placement_correct (nodes : List NodeInfo) (budget : ℚ)
    (h : gurobi_status budget nodes = .OPTIMAL) :
    (compute_optimal_placement budget nodes =
        selectedNames nodes (gurobi_solution budget nodes) ∧
      totalCost nodes (gurobi_solution budget nodes) ≤ budget ∧
      ∀ y, y.length = nodes.length → totalCost nodes y ≤ budget →
        objective nodes y ≤ objective nodes (gurobi_solution budget nodes)) ∧
    compute_optimal_placement 5 instABC = ["A"] ∧
    compute_optimal_placement 6 instABC = ["A", "B"] := by
  refine ⟨⟨?_, gurobi_solution_feasible budget nodes h,
    gurobi_solution_optimal budget nodes h⟩, ?_, ?_⟩
  · unfold compute_optimal_placement parse_placement_result
    rw [h]
  · norm_num [compute_optimal_placement, gurobi_status, feasibleVecs, boolVecs,
      totalCost, gurobi_solution, pickBest, objective, utility,
      parse_placement_result, selectedNames, instABC]
    decide
  · norm_num [compute_optimal_placement, gurobi_status, feasibleVecs, boolVecs,
      totalCost, gurobi_solution, pickBest, objective, utility,
      parse_placement_result, selectedNames, instABC]
    decide

/-- Witness for C1 on the A/B/C instance at budget 6, comparing against
the feasible assignment selecting A and C. -/
theorem compute_optimal_placement_correct_witness :
    gurobi_status 6 instABC = .OPTIMAL ∧
      totalCost instABC (gurobi_solution 6 instABC) ≤ 6 ∧
      objective instABC [true, false, true] ≤
        objective instABC (gurobi_solution 6 instABC) ∧
      compute_optimal_placement 6 instABC = ["A", "B"] := by
  have h : gurobi_status 6 instABC = .OPTIMAL := by
    norm_num [gurobi_status, feasibleVecs, boolVecs, totalCost, instABC]
    decide
  have hc := compute_optimal_placement_correct instABC 6 h
  exact ⟨h, hc.1.2.1,
    hc.1.2.2 [true, false, true] (by norm_num [instABC])
      (by norm_num [totalCost, instABC]),
    hc.2.2⟩

/-- C6 counterexample: a failed solve and an optimal solve that selects
nothing both return [], so the return value exposes no solver status (nor
any cost/value triple): an empty selection is indistinguishable from a
solver failure. -/
theorem placement_status_collapses :
    parse_placement_result .OTHER instABC [true, true, true] =
        ([] : List String) ∧
      parse_placement_result .OPTIMAL instABC [false, false, false] =
        ([] : List String) :=
  ⟨rfl, rfl⟩

/-- C6 amended: `compute_optimal_placement` returns only the
selected-name list; every non-OPTIMAL solver status yields the empty
list — identical to an optimal empty selection — and no status, cost or
value accompanies the result. -/
theorem placement_return_contract (status : GurobiStatus)
    (nodes : List NodeInfo) (x : List Bool) (h : status ≠ .OPTIMAL) :
    parse_placement_result status nodes x = [] ∧
      ∀ budget, compute_optimal_placement budget nodes =
        parse_placement_result (gurobi_status budget nodes) nodes
          (gurobi_solution budget nodes) := by
  constructor
  · cases status with
    | OPTIMAL => exact absurd rfl h
    | INFEASIBLE => rfl
    | OTHER => rfl
  · intro budget
    rfl

/-- Witness for C6 (amended) at a non-optimal status. -/
theorem placement_return_contract_witness :
    GurobiStatus.OTHER ≠ GurobiStatus.OPTIMAL ∧
      parse_placement_result .OTHER instABC [true, false, false] = [] :=
  ⟨by decide,
    (placement_return_contract .OTHER instABC [true, false, false]
      (by decide)).1⟩

/-- C5 counterexample: with a rule for 10.0.0.1 installed and the
optimizer now selecting only node n2 (address 10.0.0.2), the coordinator's
round leaves the stale 10.0.0.1 rule installed, whereas the spec's
diff-based round withdraws it: the loop computes no set difference and
keeps no previous decision. -/
theorem game_round_no_withdrawal :
    "10.0.0.1" ∈ game_round nodesOne {"10.0.0.1"} ∧
      "10.0.0.1" ∉
        spec_round_rules {"10.0.0.1"}
          ((extract_ips nodesOne (compute_optimal_placement 15 nodesOne)).toFinset)
          {"10.0.0.1"} := by
  constructor
  · norm_num [game_round, nodesOne, update_honeypot_flows, extract_ips,
      compute_optimal_placement, gurobi_status, feasibleVecs, boolVecs,
      totalCost, gurobi_solution, pickBest, objective, utility,
      parse_placement_result, selectedNames]
  · norm_num [spec_round_rules, nodesOne, extract_ips,
      compute_optimal_placement, gurobi_status, feasibleVecs, boolVecs,
      totalCost, gurobi_solution, pickBest, objective, utility,
      parse_placement_result, selectedNames]
    decide

/-- C5 amended: each round the coordinator re-solves placement and
installs enforcement rules for all currently selected addresses; it
withdraws nothing — every previously installed rule persists — and keeps
no previous decision to diff against. -/
theorem game_round_superset (nodes : List NodeInfo) (installed : Finset String)
    (h : nodes ≠ []) :
    installed ⊆ game_round nodes installed ∧
      ∀ ip ∈ extract_ips nodes (compute_optimal_placement 15 nodes),
        ip ∈ game_round nodes installed := by
  unfold game_round
  rw [if_neg h]
  unfold update_honeypot_flows
  refine ⟨Finset.subset_union_left, ?_⟩
  intro ip hip
  exact Finset.mem_union_right _ (List.mem_toFinset.mpr hip)

/-- Witness for C5 (amended) on the one-node snapshot. -/
theorem game_round_superset_witness :
    (∅ : Finset String) ⊆ game_round nodesOne ∅ ∧
      "10.0.0.2" ∈ game_round nodesOne ∅ :=
  ⟨(game_round_superset nodesOne ∅ (by simp [nodesOne])).1,
    (game_round_superset nodesOne ∅ (by simp [nodesOne])).2 "10.0.0.2"
      (by
        have hsel : compute_optimal_placement 15 nodesOne = ["n2"] := by
          norm_num [compute_optimal_placement, gurobi_status, feasibleVecs,
            boolVecs, totalCost, gurobi_solution, pickBest, objective, utility,
            parse_placement_result, selectedNames, nodesOne]
          decide
        rw [hsel]
        decide)⟩

/-- C8 counterexample: with the snapshot file absent, construction
succeeds with an empty node list — the coordinator starts instead of
failing fatally. -/
theorem controller_init_not_fatal : controller_init none = Except.ok [] :=
  rfl

/-- C8 amended: a missing network_state.json is caught and logged, the
coordinator starts with an empty node list, and every round with empty
node data leaves the enforcement state untouched — no fabricated data is
substituted for the missing snapshot. -/
theorem controller_init_empty_rounds :
    controller_init none = Except.ok [] ∧
      ∀ installed : Finset String, game_round [] installed = installed :=
  ⟨rfl, fun _ => rfl⟩

lemma mutateVuln_fields (v : VulnRec) :
    (mutateVuln v).cve_id = v.cve_id ∧
      (mutateVuln v).impact_score = v.impact_score := by
  unfold mutateVuln
  split <;> exact ⟨rfl, rfl⟩

/-- C9 counterexample: sampling the only record of the pool (impact 7.5,
below the 8.0 threshold) writes resource_req = Low-Interaction and
deploy_cost = 1 into the pool record itself: the pool after the call
differs from the pool before it. -/
theorem get_random_vuln_mutates :
    get_random_vuln vulnPoolOne 0 10 0 =
      some (⟨"CVE-0001", 7.5, some "Low-Interaction", some 1⟩,
        [⟨"CVE-0001", 7.5, some "Low-Interaction", some 1⟩]) ∧
      ([⟨"CVE-0001", 7.5, some "Low-Interaction", some 1⟩] : List VulnRec) ≠
        vulnPoolOne := by
  constructor
  · norm_num [get_random_vuln, candidatesFrom, vulnPoolOne, mutateVuln]
  · simp [vulnPoolOne]

/-- C9 amended: `get_random_vuln` changes at most the sampled record, and
only its resource_req and deploy_cost fields: the returned pool is the old
pool with one position overwritten by the returned record, whose cve_id
and impact_score agree with the old record at that position (the fallback
branch returns with the pool unchanged). -/
theorem get_random_vuln_frame (pool : List VulnRec) (minS maxS : ℚ) (k : ℕ)
    (v2 : VulnRec) (pool2 : List VulnRec)
    (h : get_random_vuln pool minS maxS k = some (v2, pool2)) :
    ∃ i, i < pool.length ∧ pool2 = pool.set i v2 ∧
      ∀ w, pool.get? i = some w →
        v2.cve_id = w.cve_id ∧ v2.impact_score = w.impact_score := by
  unfold get_random_vuln at h
  rcases hcand : candidatesFrom minS maxS 0 pool with _ | ⟨c, cs⟩
  · rw [hcand] at h
    rcases pool with _ | ⟨p, ps⟩
    · cases h
    · simp only [Option.some.injEq, Prod.mk.injEq] at h
      obtain ⟨hv2, hpool⟩ := h
      have hlt : k % (p :: ps).length < (p :: ps).length :=
        Nat.mod_lt k (by simp)
      refine ⟨k % (p :: ps).length, hlt, ?_, ?_⟩
      · rw [← hpool, ← hv2]
        exact (set_getD_self (p :: ps) (k % (p :: ps).length) p hlt).symm
      · intro w hw
        have := getD_eq_of_get?_eq_some (p :: ps) (k % (p :: ps).length) w p hw
        rw [← hv2, this]
        exact ⟨rfl, rfl⟩
  · rw [hcand] at h
    simp only [Option.some.injEq, Prod.mk.injEq] at h
    obtain ⟨hv2, hpool⟩ := h
    have hlt : k % (c :: cs).length < (c :: cs).length :=
      Nat.mod_lt k (by simp)
    have hmem : (((c :: cs).getD (k % (c :: cs).length) c).1,
        ((c :: cs).getD (k % (c :: cs).length) c).2) ∈
          candidatesFrom minS maxS 0 pool := by
      rw [hcand]
      exact getD_mem_of_lt (c :: cs) (k % (c :: cs).length) c hlt
    obtain ⟨j, hj, hget⟩ :=
      candidatesFrom_get? minS maxS pool 0
        ((c :: cs).getD (k % (c :: cs).length) c).1
        ((c :: cs).getD (k % (c :: cs).length) c).2 hmem
    have hj0 : ((c :: cs).getD (k % (c :: cs).length) c).1 = j := by omega
    refine ⟨j, lt_length_of_get?_eq_some pool j _ hget, ?_, ?_⟩
    · rw [← hpool, ← hv2, hj0]
    · intro w hw
      rw [hget] at hw
      obtain rfl := Option.some.inj hw
      rw [← hv2]
      exact mutateVuln_fields _

/-- Witness for C9 (amended) on a two-record pool, sampling in the window
that matches only the second record. -/
theorem get_random_vuln_frame_witness :
    get_random_vuln
        [⟨"CVE-0001", 7.5, some "High-Interaction", none⟩,
          ⟨"CVE-0002", 9.1, none, none⟩] 9 10 0 =
      some (⟨"CVE-0002", 9.1, some "High-Interaction", some 5⟩,
        [⟨"CVE-0001", 7.5, some "High-Interaction", none⟩,
          ⟨"CVE-0002", 9.1, some "High-Interaction", some 5⟩]) ∧
      ∃ i,
        i < ([⟨"CVE-0001", 7.5, some "High-Interaction", none⟩,
            ⟨"CVE-0002", 9.1, none, none⟩] : List VulnRec).length ∧
        ([⟨"CVE-0001", 7.5, some "High-Interaction", none⟩,
            ⟨"CVE-0002", 9.1, some "High-Interaction", some 5⟩] : List VulnRec) =
          ([⟨"CVE-0001", 7.5, some "High-Interaction", none⟩,
            ⟨"CVE-0002", 9.1, none, none⟩] : List VulnRec).set i
            ⟨"CVE-0002", 9.1, some "High-Interaction", some 5⟩ ∧
        ∀ w,
          ([⟨"CVE-0001", 7.5, some "High-Interaction", none⟩,
              ⟨"CVE-0002", 9.1, none, none⟩] : List VulnRec).get? i = some w →
          (VulnRec.mk "CVE-0002" 9.1 (some "High-Interaction") (some 5)).cve_id
              = w.cve_id ∧
            (VulnRec.mk "CVE-0002" 9.1 (some "High-Interaction") (some 5)).impact_score
              = w.impact_score := by
  have h :
      get_random_vuln
          [⟨"CVE-0001", 7.5, some "High-Interaction", none⟩,
            ⟨"CVE-0002", 9.1, none, none⟩] 9 10 0 =
        some (⟨"CVE-0002", 9.1, some "High-Interaction", some 5⟩,
          [⟨"CVE-0001", 7.5, some "High-Interaction", none⟩,
            ⟨"CVE-0002", 9.1, some "High-Interaction", some 5⟩]) := by
    norm_num [get_random_vuln, candidatesFrom, mutateVuln]
  exact ⟨h, get_random_vuln_frame _ 9 10 0 _ _ h⟩

end RMSG
